import Mathlib

/-!
# Verification of the AirReserve price-monitoring core

Shallow embedding of the price-monitoring subsystem of the AirReserve
repository:

* `src/agent/tools/notification_manager.py` — notification throttle and
  bounded history (`NotificationManager`);
* `src/agent/tools/performance_optimizer.py` — adaptive sleep-interval
  scheduler, TTL data cache and chunked shutdown-aware sleep
  (`PerformanceOptimizer`);
* `src/agent/tools/langchain_notifier.py` — the file-based monitoring
  cycle (`monitor_prices`, `send_notification`).

Python `datetime` values and `time.time()` timestamps are modelled as
rational numbers of seconds; `timedelta(minutes=m)` is `m * 60` seconds
and `timedelta(hours=24)` is `86400` seconds.  Python dictionaries are
modelled as association lists with insert-or-replace update.  A value
read from a JSON file that `datetime.fromisoformat` may reject is
modelled by `TsVal`: either a valid timestamp or a malformed string.
Code paths that can raise an uncaught exception are modelled with an
explicit `raised` flag; `try/except` blocks that swallow the exception
are modelled by total functions returning the fallback value.
-/

namespace AirReserve

/-! ## Association-list dictionaries (Python `dict`) -/

/-- Lookup of a key in an association list; first match wins
(models `d[k]` / `k in d` / `d.get(k)`). -/
def alookup {α : Type} (l : List (String × α)) (k : String) : Option α :=
  match l with
  | [] => none
  | (k₀, v₀) :: rest => if k₀ = k then some v₀ else alookup rest k

/-- Insert-or-replace update of an association list (models `d[k] = v`:
replaces the value in place when the key is present, appends otherwise). -/
def ainsert {α : Type} (l : List (String × α)) (k : String) (v : α) :
    List (String × α) :=
  match l with
  | [] => [(k, v)]
  | (k₀, v₀) :: rest =>
    if k₀ = k then (k, v) :: rest else (k₀, v₀) :: ainsert rest k v

theorem alookup_ainsert_self {α : Type} (l : List (String × α)) (k : String) (v : α) :
    alookup (ainsert l k v) k = some v := by
  induction l with
  | nil => simp [ainsert, alookup]
  | cons p rest ih =>
    obtain ⟨k₀, v₀⟩ := p
    by_cases h : k₀ = k <;> simp [ainsert, alookup, h, ih]

theorem mem_ainsert_of_ne {α : Type} {l : List (String × α)} {k₀ : String} {v₀ : α}
    (k : String) (v : α) (hmem : (k₀, v₀) ∈ l) (hne : k₀ ≠ k) :
    (k₀, v₀) ∈ ainsert l k v := by
  induction l with
  | nil => simp at hmem
  | cons p rest ih =>
    obtain ⟨k₁, v₁⟩ := p
    by_cases h : k₁ = k
    · rcases List.mem_cons.mp hmem with heq | htail
      · exact absurd ((congrArg Prod.fst heq).trans h) hne
      · simp [ainsert, h, List.mem_cons, htail]
    · rcases List.mem_cons.mp hmem with heq | htail
      · simp [ainsert, h, heq]
      · simp [ainsert, h, List.mem_cons, ih htail]

theorem mem_of_alookup_eq_some {α : Type} {l : List (String × α)} {k : String} {v : α}
    (h : alookup l k = some v) : (k, v) ∈ l := by
  induction l with
  | nil => simp [alookup] at h
  | cons p rest ih =>
    obtain ⟨k₀, v₀⟩ := p
    by_cases hk : k₀ = k
    · subst hk
      simp [alookup] at h
      simp [h]
    · simp [alookup, hk] at h
      simp [List.mem_cons, ih h]

/-! ## Flight quotes

A flight entry read from the JSON price file (`flight` dict).
`PriceField` models the `"price"` entry: absent, or present with a string
rendering (as interpolated into the dedup key / message) together with
the result of Python `float(...)` on it (`none` when `float` raises). -/

inductive PriceField where
  | absent
  | val (pRepr : String) (asFloat : Option ℚ)
deriving DecidableEq

structure Flight where
  airline : Option String
  destination : Option String
  price : PriceField
deriving DecidableEq

/-- String rendering of `flight.get("price", 0)` as interpolated into the
dedup key and the stored history record. -/
def priceRepr (fl : Flight) : String :=
  match fl.price with
  | .absent => "0"
  | .val r _ => r

/-- `NotificationManager._get_notification_key`:
`f"{flight.get('airline','Unknown')}_{flight.get('destination','Unknown')}_{flight.get('price',0)}"`. -/
def notifKey (fl : Flight) : String :=
  fl.airline.getD "Unknown" ++ "_" ++ fl.destination.getD "Unknown" ++ "_" ++ priceRepr fl

/-- `float(flight.get("price", float('inf')))` in the monitoring loop:
`.error ()` when `float` raises (malformed price), `.ok none` for the
`float('inf')` default (missing price, never below any threshold),
`.ok (some q)` for a finite numeric price. -/
def priceParsed (fl : Flight) : Except Unit (Option ℚ) :=
  match fl.price with
  | .absent => .ok none
  | .val _ (some q) => .ok (some q)
  | .val _ none => .error ()

/-! ## Notification history and throttle (`NotificationManager`) -/

/-- A timestamp string stored in the persisted JSON file: either a valid
ISO-8601 timestamp (with its parsed value, in seconds) or a string that
`datetime.fromisoformat` rejects. -/
inductive TsVal where
  | valid (t : ℚ)
  | malformed (s : String)
deriving DecidableEq

/-- One record of `history["notifications"]` as written by
`record_notification`. -/
structure NotifRecord where
  timestamp : TsVal
  airline : String
  destination : String
  price : String
  channels : List String
deriving DecidableEq

/-- The JSON document of the history file: `{"notifications": [...],
"throttle_cache": {...}}`. -/
structure History where
  notifications : List NotifRecord
  throttle_cache : List (String × TsVal)
deriving DecidableEq

/-- The state of the history file on disk: missing, unparseable JSON, or a
well-formed document. -/
inductive HFile where
  | missing
  | corrupt
  | good (h : History)
deriving DecidableEq

/-- `NotificationManager._load_history`: returns the parsed file when it
exists and parses; any failure is caught and the empty default
`{"notifications": [], "throttle_cache": {}}` is returned (total: no
exception propagates). -/
def loadHistory : HFile → History
  | .good h => h
  | _ => { notifications := [], throttle_cache := [] }

/-- The in-memory throttle cache `self.sent_notifications`
(dedup key ↦ last-sent time). -/
abbrev Mem := List (String × ℚ)

/-- `NotificationManager.is_throttled`: in-memory map first, then the
persisted throttle cache; a malformed stored timestamp is swallowed by
`try/except: pass` (treated as not throttled).  Total: never raises.
`m` is `throttle_minutes`, times are in seconds. -/
def isThrottled (mem : Mem) (file : HFile) (fl : Flight) (now m : ℚ) : Bool :=
  let key := notifKey fl
  let memHit :=
    match alookup mem key with
    | some lastSent => decide (now - lastSent < m * 60)
    | none => false
  if memHit then true
  else
    match alookup (loadHistory file).throttle_cache key with
    | some (.valid lastSent) => decide (now - lastSent < m * 60)
    | some (.malformed _) => false
    | none => false

/-- The record appended to `history["notifications"]` by
`record_notification`. -/
def newRecord (fl : Flight) (channelsUsed : List String) (now : ℚ) : NotifRecord :=
  { timestamp := .valid now
    airline := fl.airline.getD "Unknown"
    destination := fl.destination.getD "Unknown"
    price := priceRepr fl
    channels := channelsUsed }

/-- The 24-hour pruning comprehension
`{k: v for k, v in cache.items() if datetime.fromisoformat(v) > cutoff}`:
`none` models the `ValueError` raised by `fromisoformat` on a malformed
value (the comprehension has no surrounding `try`). -/
def pruneCache (cutoff : ℚ) : List (String × TsVal) → Option (List (String × TsVal))
  | [] => some []
  | (k, v) :: rest =>
    match v with
    | .malformed _ => none
    | .valid t =>
      match pruneCache cutoff rest with
      | none => none
      | some r => some (if t > cutoff then (k, .valid t) :: r else r)

/-- Result of `record_notification`.  The in-memory map is updated before
anything can raise; `raised = true` models the uncaught `ValueError` from
the pruning step, in which case `_save_history` is never reached and the
file is unchanged.  (`_save_history` I/O errors are caught in the source
and are modelled as a successful write.) -/
structure RecordResult where
  mem : Mem
  file : HFile
  raised : Bool
deriving DecidableEq

/-- The history-bloat guard
`if len(history["notifications"]) > 100: history["notifications"] = history["notifications"][-100:]`. -/
def trimNotifs (l : List NotifRecord) : List NotifRecord :=
  if l.length > 100 then l.drop (l.length - 100) else l

/-- `NotificationManager.record_notification`: update the in-memory map,
reload the file, append the new record, refresh the persisted throttle
cache, trim to the last 100 records, prune cache entries older than 24
hours (raising on a malformed stored timestamp), then save. -/
def recordNotification (mem : Mem) (file : HFile) (fl : Flight)
    (channelsUsed : List String) (now : ℚ) : RecordResult :=
  let key := notifKey fl
  let mem' := ainsert mem key now
  let h := loadHistory file
  let notifs1 := h.notifications ++ [newRecord fl channelsUsed now]
  let cache1 := ainsert h.throttle_cache key (.valid now)
  match pruneCache (now - 86400) cache1 with
  | none => { mem := mem', file := file, raised := true }
  | some cache2 =>
      { mem := mem'
        file := .good { notifications := trimNotifs notifs1, throttle_cache := cache2 }
        raised := false }

/-- Result of `get_notification_stats`. -/
structure Stats where
  total : Nat
  today : Nat
  thisWeek : Nat
deriving DecidableEq

/-- Calendar day of a timestamp (models `datetime.date()` for timestamps
measured in seconds). -/
def dayOf (t : ℚ) : ℤ := ⌊t / 86400⌋

/-- `NotificationManager.get_notification_stats`: aggregates the persisted
history; records with malformed timestamps are skipped by
`try/except: continue`.  Total: never raises. -/
def getNotificationStats (file : HFile) (now : ℚ) : Stats :=
  let notifications := (loadHistory file).notifications
  if notifications.isEmpty then { total := 0, today := 0, thisWeek := 0 }
  else
    let weekAgo := now - 7 * 86400
    { total := notifications.length
      today := (notifications.filter (fun r =>
          match r.timestamp with
          | .valid t => decide (dayOf t = dayOf now)
          | .malformed _ => false)).length
      thisWeek := (notifications.filter (fun r =>
          match r.timestamp with
          | .valid t => decide (t > weekAgo)
          | .malformed _ => false)).length }

/-! ## The monitoring cycle (`langchain_notifier.py`)

`send_notification` and the per-flight body of the file-based branch of
`monitor_prices`.  Discord is modelled as disabled (`discord_notifier is
None`, the configuration default when no webhook URL is set); the console
channel is controlled by `consoleEnabled` (`"console" in CHANNELS`). -/

/-- Result of one `send_notification` call.  `sentMessage` is whether the
call returned a non-`None` message (i.e. passed the throttle gate and
completed); `raised` models an exception escaping the call, either the
`KeyError` from `flight['airline']` / `flight['destination']` /
`flight['price']` in the message f-string, or the `ValueError` from
`record_notification` — side effects made before the raise persist. -/
structure SendResult where
  mem : Mem
  file : HFile
  sentMessage : Bool
  raised : Bool
deriving DecidableEq

/-- `send_notification(flight)`: throttle gate first (no state change when
suppressed), then the message build, console dispatch and
`record_notification`. -/
def sendNotification (mem : Mem) (file : HFile) (fl : Flight)
    (consoleEnabled : Bool) (m now : ℚ) : SendResult :=
  if isThrottled mem file fl now m then
    { mem := mem, file := file, sentMessage := false, raised := false }
  else
    match fl.airline, fl.destination, fl.price with
    | some _, some _, .val _ _ =>
      let channelsUsed := if consoleEnabled then ["console"] else []
      let r := recordNotification mem file fl channelsUsed now
      { mem := r.mem, file := r.file, sentMessage := !r.raised, raised := r.raised }
    | _, _, _ => { mem := mem, file := file, sentMessage := false, raised := true }

/-- Running state of one monitoring cycle: the manager state, the count
`notifications_sent`, the flights for which `send_notification` was
invoked, and those for which it returned a message. -/
structure CycleState where
  mem : Mem
  file : HFile
  sent : Nat
  attempted : List Flight
  dispatched : List Flight
deriving DecidableEq

/-- Whether the monitoring loop's threshold test
`float(flight.get("price", float('inf'))) < threshold` passes without
raising. -/
def belowThreshold (threshold : ℚ) (fl : Flight) : Bool :=
  match priceParsed fl with
  | .ok (some q) => decide (q < threshold)
  | _ => false

/-- The body of `for flight in prices: try: ... except: ...` for one
flight: the threshold test, then `send_notification`; any exception (a
malformed price failing `float`, or one escaping `send_notification`) is
caught by the per-item handler and processing continues. -/
def processOne (consoleEnabled : Bool) (m threshold now : ℚ)
    (st : CycleState) (fl : Flight) : CycleState :=
  match priceParsed fl with
  | .error _ => st
  | .ok pv =>
    let below := match pv with | some q => decide (q < threshold) | none => false
    if below then
      let r := sendNotification st.mem st.file fl consoleEnabled m now
      { mem := r.mem
        file := r.file
        sent := st.sent + (if r.sentMessage then 1 else 0)
        attempted := st.attempted ++ [fl]
        dispatched := st.dispatched ++ (if r.sentMessage then [fl] else []) }
    else st

/-- The per-flight loop of one file-based monitoring cycle
(`monitor_prices`, traditional branch). -/
def processFlights (consoleEnabled : Bool) (m threshold now : ℚ)
    (st : CycleState) (fls : List Flight) : CycleState :=
  match fls with
  | [] => st
  | fl :: rest =>
    processFlights consoleEnabled m threshold now
      (processOne consoleEnabled m threshold now st fl) rest

/-! ## Adaptive sleep scheduler (`PerformanceOptimizer`)

`optimize_sleep_interval` state.  Configuration values
(`min_sleep_interval`, `max_sleep_interval`, integers in the source's
defaults) are carried in the state like the Python instance attributes.
The `performance_metrics["sleep_intervals"]` append is pure bookkeeping
(never read back by the scheduler) and is not modelled. -/

structure OptState where
  minSleep : ℤ
  maxSleep : ℤ
  adaptive : Bool
  current : ℚ
  activity : ℚ
  lastActivity : ℚ
deriving DecidableEq

/-- `q.num.fdiv q.den`: the floor of a rational, computably. -/
def ratFloor (q : ℚ) : ℤ := q.num.fdiv (q.den : ℤ)

/-- Python `int(...)`: truncation toward zero. -/
def pyInt (q : ℚ) : ℤ := if q < 0 then -ratFloor (-q) else ratFloor q

/-- The activity-band target: `> 80 → min`, `> 50 → (min + max) // 2`
(Python floor division), else `max`. -/
def optimalInterval (minS maxS : ℤ) (act : ℚ) : ℤ :=
  if act > 80 then minS
  else if act > 50 then (minS + maxS).fdiv 2
  else maxS

/-- The 10%-per-cycle smoothing step:
`min(optimal, cur * 1.1)` when moving up, `max(optimal, cur * 0.9)` when
moving down. -/
def smoothToward (cur : ℚ) (optimal : ℤ) : ℚ :=
  if (optimal : ℚ) > cur then min (optimal : ℚ) (cur * (11 / 10))
  else max (optimal : ℚ) (cur * (9 / 10))

/-- The final clamp `max(min_sleep, min(max_sleep, int(...)))`. -/
def clampInterval (minS maxS x : ℤ) : ℤ := max minS (min maxS x)

/-- `PerformanceOptimizer.optimize_sleep_interval(notifications_sent,
data_changed)` at wall-clock time `now`; returns the updated state and the
returned interval.  When `adaptive_sleep` is off the stored interval is
returned unchanged. -/
def optimizeSleepInterval (s : OptState) (now : ℚ)
    (notificationsSent : ℤ) (dataChanged : Bool) : OptState × ℚ :=
  if s.adaptive then
    let timeSinceActivity := now - s.lastActivity
    let active := 0 < notificationsSent ∨ dataChanged = true
    let activity1 : ℚ :=
      if active then min 100 (s.activity + 20)
      else max 0 (s.activity - timeSinceActivity / 60 * 5)
    let lastActivity1 : ℚ := if active then now else s.lastActivity
    let optimal := optimalInterval s.minSleep s.maxSleep activity1
    let newCur := clampInterval s.minSleep s.maxSleep (pyInt (smoothToward s.current optimal))
    ({ s with current := (newCur : ℚ), activity := activity1, lastActivity := lastActivity1 },
      (newCur : ℚ))
  else (s, s.current)

/-! ## TTL data cache (`PerformanceOptimizer.efficient_data_load`) -/

/-- The backing price file: missing (`file_path.exists()` false),
unparseable JSON (read raises, caught, `[]` returned), or good data. -/
inductive FileData where
  | missing
  | corrupt
  | good (d : List Flight)
deriving DecidableEq

/-- Cache state: `data_cache`, `cache_timestamps` and the configured
`cache_ttl`. -/
structure CacheState where
  dataCache : List (String × List Flight)
  cacheTimestamps : List (String × ℚ)
  cacheTtl : ℚ
deriving DecidableEq

/-- `efficient_data_load(file_path, cache_key)` at time `now`: returns the
new state, the payload, and the number of backing-store reads performed
(0 on a cache hit or a missing file, 1 when the file is opened).  A key
equal to `""` models a falsy `cache_key` (`if cache_key and ...`).
Timestamps absent from `cache_timestamps` default to `0`
(`.get(cache_key, 0)`). -/
def efficientDataLoad (s : CacheState) (file : FileData) (key : String) (now : ℚ) :
    CacheState × List Flight × Nat :=
  let cached : Option (List Flight) :=
    if key ≠ "" then
      match alookup s.dataCache key with
      | some d =>
        let cacheTime := (alookup s.cacheTimestamps key).getD 0
        if now - cacheTime < s.cacheTtl then some d else none
      | none => none
    else none
  match cached with
  | some d => (s, d, 0)
  | none =>
    match file with
    | .missing => (s, [], 0)
    | .corrupt => (s, [], 1)
    | .good d =>
      if key ≠ "" then
        ({ dataCache := ainsert s.dataCache key d
           cacheTimestamps := ainsert s.cacheTimestamps key now
           cacheTtl := s.cacheTtl }, d, 1)
      else (s, d, 1)

/-! ## Chunked shutdown-aware sleep (`PerformanceOptimizer.optimized_sleep`)

The shutdown flag (set by `request_shutdown`, possibly from a signal
handler at an arbitrary moment) is modelled by a monotone oracle
`req : ℚ → Bool` giving the flag's value at each absolute time; each
`await asyncio.sleep(s)` advances time by exactly `s` seconds and the
checks between chunks are instantaneous. -/

/-- The `while remaining_time > 0 and not self.shutdown_requested:` loop,
followed by `return not self.shutdown_requested`.  Returns the absolute
time at which the call returns and the returned continue-flag.  `chunk`
is `chunk_size = min(optimized_interval, 10)`; the positivity hypothesis
reflects that the loop is only entered with a positive interval. -/
def chunkedSleepLoop (req : ℚ → Bool) (chunk : ℕ) (hc : 0 < chunk)
    (t : ℚ) (remaining : ℕ) : ℚ × Bool :=
  if h : remaining = 0 then (t, !req t)
  else if req t then (t, false)
  else
    chunkedSleepLoop req chunk hc (t + (min chunk remaining : ℕ))
      (remaining - min chunk remaining)
termination_by remaining
decreasing_by omega

/-- `optimized_sleep` after the interval has been optimized to `T`
seconds: the initial `if self.shutdown_requested: return False` check,
then the chunked sleep with `chunk_size = min(T, 10)`. -/
def optimizedSleep (req : ℚ → Bool) (t₀ : ℚ) (T : ℕ) : ℚ × Bool :=
  if req t₀ then (t₀, false)
  else if hT : T = 0 then (t₀, !req t₀)
  else chunkedSleepLoop req (min T 10) (by omega) t₀ T

/-! ## Concrete sample data used by witnesses and counterexamples -/

/-- A sample quote: Delta to Paris at `$150`. -/
def fDelta : Flight :=
  { airline := some "Delta", destination := some "Paris", price := .val "150" (some 150) }

/-- A sample quote: United to Rome at `$180`. -/
def fUnited : Flight :=
  { airline := some "United", destination := some "Rome", price := .val "180" (some 180) }

/-- A sample quote above the `$200` threshold: Air Canada to Tokyo at `$250`. -/
def fTokyo : Flight :=
  { airline := some "AirCanada", destination := some "Tokyo", price := .val "250" (some 250) }

/-- A history file whose throttle cache holds a malformed timestamp at
`fDelta`'s own dedup key. -/
def malformedSameKeyFile : HFile :=
  .good { notifications := [], throttle_cache := [(notifKey fDelta, .malformed "not-a-timestamp")] }

/-- A history file whose throttle cache holds a malformed timestamp at a
key different from `fDelta`'s dedup key. -/
def malformedOtherKeyFile : HFile :=
  .good { notifications := [], throttle_cache := [("Other_Key_1", .malformed "garbage")] }

/-! ## Lemmas about the pruning comprehension -/

theorem pruneCache_mem {cutoff : ℚ} {l r : List (String × TsVal)}
    (hp : pruneCache cutoff l = some r) :
    ∀ p ∈ r, ∃ t, p.2 = TsVal.valid t ∧ t > cutoff := by
  induction l generalizing r with
  | nil =>
    simp only [pruneCache, Option.some.injEq] at hp
    subst hp
    simp
  | cons q rest ih =>
    obtain ⟨k, v⟩ := q
    match v with
    | .malformed s => simp [pruneCache] at hp
    | .valid t =>
      simp only [pruneCache] at hp
      cases hrest : pruneCache cutoff rest with
      | none => rw [hrest] at hp; simp at hp
      | some r₀ =>
        rw [hrest] at hp
        simp only [Option.some.injEq] at hp
        intro p hpmem
        by_cases hcut : t > cutoff
        · rw [← hp] at hpmem
          rw [if_pos hcut] at hpmem
          rcases List.mem_cons.mp hpmem with heq | htail
          · exact ⟨t, by simp [heq], hcut⟩
          · exact ih hrest p htail
        · rw [← hp] at hpmem
          rw [if_neg hcut] at hpmem
          exact ih hrest p hpmem

theorem pruneCache_lookup {cutoff : ℚ} {l r : List (String × TsVal)} {k : String} {t : ℚ}
    (hp : pruneCache cutoff l = some r) (hl : alookup l k = some (.valid t))
    (hcut : t > cutoff) : alookup r k = some (.valid t) := by
  induction l generalizing r with
  | nil => simp [alookup] at hl
  | cons q rest ih =>
    obtain ⟨k₀, v₀⟩ := q
    match v₀ with
    | .malformed s => simp [pruneCache] at hp
    | .valid t₀ =>
      simp only [pruneCache] at hp
      cases hrest : pruneCache cutoff rest with
      | none => rw [hrest] at hp; simp at hp
      | some r₀ =>
        rw [hrest] at hp
        simp only [Option.some.injEq] at hp
        rw [alookup] at hl
        by_cases hk : k₀ = k
        · rw [if_pos hk] at hl
          have ht : t₀ = t := TsVal.valid.inj (Option.some.inj hl)
          subst ht
          rw [← hp, if_pos hcut, alookup, if_pos hk]
        · rw [if_neg hk] at hl
          by_cases hc₀ : t₀ > cutoff
          · rw [← hp, if_pos hc₀, alookup, if_neg hk]
            exact ih hrest hl
          · rw [← hp, if_neg hc₀]
            exact ih hrest hl

theorem pruneCache_none_of_malformed {cutoff : ℚ} {l : List (String × TsVal)}
    {k : String} {s : String} (hmem : (k, TsVal.malformed s) ∈ l) :
    pruneCache cutoff l = none := by
  induction l with
  | nil => simp at hmem
  | cons q rest ih =>
    obtain ⟨k₀, v₀⟩ := q
    rcases List.mem_cons.mp hmem with heq | htail
    · obtain ⟨h₁, h₂⟩ := Prod.mk.injEq .. ▸ heq
      simp [pruneCache, ← h₂]
    · match v₀ with
      | .malformed s₀ => simp [pruneCache]
      | .valid t₀ => simp [pruneCache, ih htail]

/-- `record_notification` updates the in-memory throttle map regardless of
whether the pruning step raises. -/
theorem trimNotifs_length (l : List NotifRecord) : (trimNotifs l).length ≤ 100 := by
  unfold trimNotifs
  by_cases hL : l.length > 100
  · rw [if_pos hL]; simp only [List.length_drop]; omega
  · rw [if_neg hL]; omega

theorem trimNotifs_suffix (l : List NotifRecord) : trimNotifs l <:+ l := by
  unfold trimNotifs
  by_cases hL : l.length > 100
  · rw [if_pos hL]; exact List.drop_suffix _ _
  · rw [if_neg hL]

theorem trimNotifs_eq_of_le {l : List NotifRecord} (h : l.length ≤ 100) :
    trimNotifs l = l := by
  unfold trimNotifs
  rw [if_neg (by omega)]

theorem recordNotification_mem (mem : Mem) (file : HFile) (fl : Flight)
    (ch : List String) (now : ℚ) :
    (recordNotification mem file fl ch now).mem = ainsert mem (notifKey fl) now := by
  rw [recordNotification]
  cases pruneCache (now - 86400)
      (ainsert (loadHistory file).throttle_cache (notifKey fl) (TsVal.valid now)) <;> rfl

/-! ## C7 — corrupted history file fails open -/

/-- C7: if the persisted history file contains invalid JSON (or cannot be
read), the throttle behaves as if no prior notifications exist:
`_load_history` returns the empty default, `is_throttled` returns false
absent in-memory entries, `get_notification_stats` reports zero counts,
and (all three functions being total) no exception propagates. -/
theorem corrupt_history_fail_open (fl : Flight) (now m : ℚ) :
    loadHistory .corrupt = { notifications := [], throttle_cache := [] } ∧
    isThrottled [] .corrupt fl now m = false ∧
    getNotificationStats .corrupt now = { total := 0, today := 0, thisWeek := 0 } := by
  refine ⟨rfl, ?_, rfl⟩
  simp [isThrottled, loadHistory, alookup]

/-! ## C8 — bounded history and 24-hour cache pruning -/

/-- C8: after every successful (non-raising) `record_notification`, the
persisted history holds at most 100 records — a suffix of the old records
followed by the new one, so the oldest are evicted first, and nothing is
dropped while the list fits — and every surviving throttle-cache entry
has a valid timestamp less than 24 hours (86400 s) old relative to the
call time. -/
theorem record_trims_and_prunes (mem : Mem) (file : HFile) (fl : Flight)
    (ch : List String) (now : ℚ)
    (hok : (recordNotification mem file fl ch now).raised = false) :
    ∃ hist : History,
      (recordNotification mem file fl ch now).file = .good hist ∧
      hist.notifications.length ≤ 100 ∧
      hist.notifications <:+ ((loadHistory file).notifications ++ [newRecord fl ch now]) ∧
      ((loadHistory file).notifications.length + 1 ≤ 100 →
        hist.notifications = (loadHistory file).notifications ++ [newRecord fl ch now]) ∧
      ∀ p ∈ hist.throttle_cache, ∃ t, p.2 = TsVal.valid t ∧ now - t < 86400 := by
  cases hp : pruneCache (now - 86400)
      (ainsert (loadHistory file).throttle_cache (notifKey fl) (TsVal.valid now)) with
  | none => rw [recordNotification, hp] at hok; simp at hok
  | some cache2 =>
    refine ⟨⟨trimNotifs ((loadHistory file).notifications ++ [newRecord fl ch now]), cache2⟩,
      ?_, trimNotifs_length _, trimNotifs_suffix _, ?_, ?_⟩
    · rw [recordNotification, hp]
    · intro hfit
      exact trimNotifs_eq_of_le (by simpa using hfit)
    · intro p hpm
      obtain ⟨t, hv, hcut⟩ := pruneCache_mem hp p hpm
      exact ⟨t, hv, by linarith⟩

/-! ## C10 — malformed stored timestamp: `record_notification` raises,
`is_throttled` does not -/

/-- Refutes C10 as stated: when the only malformed throttle-cache value
sits at the quote's *own* dedup key, `record_notification` does **not**
raise — the entry is overwritten with a fresh valid timestamp before the
pruning step runs.  (The claim asserts a raise whenever *any* stored
value is malformed.) -/
theorem record_malformed_cache_counterexample :
    (∃ p ∈ (loadHistory malformedSameKeyFile).throttle_cache,
        ∃ s, p.2 = TsVal.malformed s) ∧
    (recordNotification [] malformedSameKeyFile fDelta ["console"] 0).raised = false := by
  constructor
  · exact ⟨(notifKey fDelta, .malformed "not-a-timestamp"),
      by simp [malformedSameKeyFile, loadHistory], "not-a-timestamp", rfl⟩
  · with_unfolding_all decide

/-- C10 (amended): if a value stored at a key *other than the quote's
dedup key* in the persisted throttle cache is not a parseable timestamp,
`record_notification` raises during the 24-hour pruning step — the
history file is left unchanged and the new record is never persisted,
though the in-memory entry has already been updated — whereas
`is_throttled` treats the same malformed stored timestamp as
not-throttled without raising. -/
theorem record_malformed_cache_raises (mem : Mem) (file : HFile) (fl : Flight)
    (ch : List String) (now : ℚ) (k' s' : String)
    (hk : alookup (loadHistory file).throttle_cache k' = some (.malformed s'))
    (hne : k' ≠ notifKey fl) :
    (recordNotification mem file fl ch now).raised = true ∧
    (recordNotification mem file fl ch now).file = file ∧
    (recordNotification mem file fl ch now).mem = ainsert mem (notifKey fl) now ∧
    (∀ (mem₂ : Mem) (fl' : Flight) (now₂ m₂ : ℚ), notifKey fl' = k' →
      alookup mem₂ k' = none → isThrottled mem₂ file fl' now₂ m₂ = false) := by
  have hmem₁ : (k', TsVal.malformed s') ∈
      ainsert (loadHistory file).throttle_cache (notifKey fl) (TsVal.valid now) :=
    mem_ainsert_of_ne _ _ (mem_of_alookup_eq_some hk) hne
  have hp : pruneCache (now - 86400)
      (ainsert (loadHistory file).throttle_cache (notifKey fl) (TsVal.valid now)) = none :=
    pruneCache_none_of_malformed hmem₁
  refine ⟨?_, ?_, recordNotification_mem mem file fl ch now, ?_⟩
  · rw [recordNotification, hp]
  · rw [recordNotification, hp]
  · intro mem₂ fl' now₂ m₂ hkey hmem₂
    simp [isThrottled, hkey, hmem₂, hk]

/-- Witness for `record_trims_and_prunes` at a concrete call. -/
theorem record_trims_and_prunes_witness :
    (recordNotification [] .missing fDelta ["console"] 0).raised = false ∧
    (∃ hist : History,
      (recordNotification [] HFile.missing fDelta ["console"] 0).file = .good hist ∧
      hist.notifications.length ≤ 100 ∧
      hist.notifications <:+
        ((loadHistory HFile.missing).notifications ++ [newRecord fDelta ["console"] 0]) ∧
      ((loadHistory HFile.missing).notifications.length + 1 ≤ 100 →
        hist.notifications =
          (loadHistory HFile.missing).notifications ++ [newRecord fDelta ["console"] 0]) ∧
      ∀ p ∈ hist.throttle_cache, ∃ t, p.2 = TsVal.valid t ∧ (0 : ℚ) - t < 86400) :=
  ⟨by with_unfolding_all decide,
    record_trims_and_prunes [] .missing fDelta ["console"] 0 (by with_unfolding_all decide)⟩

/-- Witness for `record_malformed_cache_raises` at a concrete call. -/
theorem record_malformed_cache_raises_witness :
    (alookup (loadHistory malformedOtherKeyFile).throttle_cache "Other_Key_1" =
      some (.malformed "garbage") ∧ "Other_Key_1" ≠ notifKey fDelta) ∧
    ((recordNotification [] malformedOtherKeyFile fDelta ["console"] 0).raised = true ∧
      (recordNotification [] malformedOtherKeyFile fDelta ["console"] 0).file =
        malformedOtherKeyFile ∧
      (recordNotification [] malformedOtherKeyFile fDelta ["console"] 0).mem =
        ainsert [] (notifKey fDelta) 0 ∧
      (∀ (mem₂ : Mem) (fl' : Flight) (now₂ m₂ : ℚ), notifKey fl' = "Other_Key_1" →
        alookup mem₂ "Other_Key_1" = none →
        isThrottled mem₂ malformedOtherKeyFile fl' now₂ m₂ = false)) :=
  ⟨⟨by with_unfolding_all rfl, by with_unfolding_all decide⟩,
    record_malformed_cache_raises [] malformedOtherKeyFile fDelta ["console"] 0
      "Other_Key_1" "garbage" (by with_unfolding_all rfl) (by with_unfolding_all decide)⟩

/-! ## C1 — the throttle window -/

/-- `is_throttled` returns true exactly when one of its two sources (the
in-memory map, then the persisted cache with a parseable timestamp) holds
an entry for the quote's dedup key recorded strictly less than
`throttle_minutes` ago. -/
theorem isThrottled_iff (mem : Mem) (file : HFile) (fl : Flight) (now m : ℚ) :
    isThrottled mem file fl now m = true ↔
      ((∃ t, alookup mem (notifKey fl) = some t ∧ now - t < m * 60) ∨
       (∃ t, alookup (loadHistory file).throttle_cache (notifKey fl) =
          some (TsVal.valid t) ∧ now - t < m * 60)) := by
  unfold isThrottled
  cases hm : alookup mem (notifKey fl) with
  | none =>
    cases hc : alookup (loadHistory file).throttle_cache (notifKey fl) with
    | none => simp [hm, hc]
    | some v =>
      cases v with
      | valid t => simp [hm, hc]
      | malformed s => simp [hm, hc]
  | some t =>
    by_cases hlt : now - t < m * 60
    · simp [hm, hlt]
    · cases hc : alookup (loadHistory file).throttle_cache (notifKey fl) with
      | none => simp [hm, hc, hlt]
      | some v =>
        cases v with
        | valid t' => simp [hm, hc, hlt]
        | malformed s => simp [hm, hc, hlt]

/-- C1: after a successful `record_notification` at `t₁`, a second
notification of the same dedup key at `t₂` is throttled — and
`send_notification` suppresses it, leaving the manager state (hence the
history) unchanged — exactly when strictly less than `throttle_minutes`
have elapsed; beyond the window it is not throttled.  The first conjunct
characterises `is_throttled` on arbitrary states as "a young enough
record in the in-memory map or in the persisted cache". -/
theorem throttle_window_correct (mem : Mem) (file : HFile) (fl : Flight)
    (ch : List String) (cE : Bool) (t₁ t₂ m : ℚ)
    (hok : (recordNotification mem file fl ch t₁).raised = false) :
    (isThrottled mem file fl t₂ m = true ↔
      ((∃ t, alookup mem (notifKey fl) = some t ∧ t₂ - t < m * 60) ∨
       (∃ t, alookup (loadHistory file).throttle_cache (notifKey fl) =
          some (TsVal.valid t) ∧ t₂ - t < m * 60))) ∧
    (t₂ - t₁ < m * 60 →
      isThrottled (recordNotification mem file fl ch t₁).mem
        (recordNotification mem file fl ch t₁).file fl t₂ m = true ∧
      sendNotification (recordNotification mem file fl ch t₁).mem
        (recordNotification mem file fl ch t₁).file fl cE m t₂ =
        { mem := (recordNotification mem file fl ch t₁).mem
          file := (recordNotification mem file fl ch t₁).file
          sentMessage := false, raised := false }) ∧
    (m * 60 ≤ t₂ - t₁ →
      isThrottled (recordNotification mem file fl ch t₁).mem
        (recordNotification mem file fl ch t₁).file fl t₂ m = false) := by
  have hRmem := recordNotification_mem mem file fl ch t₁
  refine ⟨isThrottled_iff mem file fl t₂ m, ?_, ?_⟩
  · intro hlt
    have hthr : isThrottled (recordNotification mem file fl ch t₁).mem
        (recordNotification mem file fl ch t₁).file fl t₂ m = true := by
      rw [isThrottled_iff]
      exact Or.inl ⟨t₁, by rw [hRmem]; exact alookup_ainsert_self _ _ _, hlt⟩
    exact ⟨hthr, by rw [sendNotification, if_pos hthr]⟩
  · intro hge
    cases hp : pruneCache (t₁ - 86400)
        (ainsert (loadHistory file).throttle_cache (notifKey fl) (TsVal.valid t₁)) with
    | none => rw [recordNotification, hp] at hok; simp at hok
    | some cache2 =>
      have hRfile : (recordNotification mem file fl ch t₁).file =
          .good ⟨trimNotifs ((loadHistory file).notifications ++ [newRecord fl ch t₁]),
            cache2⟩ := by
        rw [recordNotification, hp]
      have hc2 : alookup cache2 (notifKey fl) = some (TsVal.valid t₁) :=
        pruneCache_lookup hp (alookup_ainsert_self _ _ _) (by linarith)
      have hnot : ¬ (isThrottled (recordNotification mem file fl ch t₁).mem
          (recordNotification mem file fl ch t₁).file fl t₂ m = true) := by
        rw [isThrottled_iff]
        rintro (⟨t, htl, hlt'⟩ | ⟨t, htl, hlt'⟩)
        · rw [hRmem, alookup_ainsert_self] at htl
          have := Option.some.inj htl
          linarith [this ▸ hlt']
        · rw [hRfile] at htl
          rw [show (loadHistory (HFile.good ⟨trimNotifs ((loadHistory file).notifications ++
              [newRecord fl ch t₁]), cache2⟩)).throttle_cache = cache2 from rfl] at htl
          rw [hc2] at htl
          have := TsVal.valid.inj (Option.some.inj htl)
          linarith [this ▸ hlt']
      exact Bool.eq_false_iff.mpr hnot

/-- Witness for `throttle_window_correct`: a first notification recorded
at `t = 0` with a 30-minute window, probed at `t = 60` seconds. -/
theorem throttle_window_correct_witness :
    (recordNotification [] HFile.missing fDelta ["console"] 0).raised = false ∧
    ((isThrottled [] HFile.missing fDelta 60 30 = true ↔
      ((∃ t, alookup [] (notifKey fDelta) = some t ∧ (60 : ℚ) - t < 30 * 60) ∨
       (∃ t, alookup (loadHistory HFile.missing).throttle_cache (notifKey fDelta) =
          some (TsVal.valid t) ∧ (60 : ℚ) - t < 30 * 60))) ∧
    ((60 : ℚ) - 0 < 30 * 60 →
      isThrottled (recordNotification [] HFile.missing fDelta ["console"] 0).mem
        (recordNotification [] HFile.missing fDelta ["console"] 0).file fDelta 60 30 = true ∧
      sendNotification (recordNotification [] HFile.missing fDelta ["console"] 0).mem
        (recordNotification [] HFile.missing fDelta ["console"] 0).file fDelta true 30 60 =
        { mem := (recordNotification [] HFile.missing fDelta ["console"] 0).mem
          file := (recordNotification [] HFile.missing fDelta ["console"] 0).file
          sentMessage := false, raised := false }) ∧
    ((30 : ℚ) * 60 ≤ (60 : ℚ) - 0 →
      isThrottled (recordNotification [] HFile.missing fDelta ["console"] 0).mem
        (recordNotification [] HFile.missing fDelta ["console"] 0).file fDelta 60 30 = false)) :=
  ⟨by with_unfolding_all decide,
    throttle_window_correct [] HFile.missing fDelta ["console"] true 0 60 30
      (by with_unfolding_all decide)⟩

/-! ## C9 — the monitoring cycle's threshold gate -/

/-- C9: in each file-based monitoring cycle, `send_notification` is
attempted for exactly the flights whose price parses to a number strictly
below the threshold — a missing or malformed price never triggers an
attempt and never aborts the processing of the remaining items — and in
the three-quote example (prices 150, 180, 250, threshold 200, fresh
state) exactly two notifications are dispatched and recorded while the
`$250` quote is never attempted. -/
theorem monitor_cycle_threshold_gate :
    (∀ (cE : Bool) (m threshold now : ℚ) (st : CycleState) (fls : List Flight),
      (processFlights cE m threshold now st fls).attempted =
        st.attempted ++ fls.filter (belowThreshold threshold)) ∧
    ((processFlights true 30 200 0 ⟨[], .missing, 0, [], []⟩ [fDelta, fUnited, fTokyo]).sent
        = 2 ∧
     (processFlights true 30 200 0 ⟨[], .missing, 0, [], []⟩ [fDelta, fUnited, fTokyo]).dispatched
        = [fDelta, fUnited] ∧
     fTokyo ∉
       (processFlights true 30 200 0 ⟨[], .missing, 0, [], []⟩ [fDelta, fUnited, fTokyo]).attempted) := by
  constructor
  · intro cE m threshold now st fls
    induction fls generalizing st with
    | nil => simp [processFlights]
    | cons fl rest ih =>
      rw [processFlights, ih]
      cases hpp : priceParsed fl with
      | error e =>
        have hb : belowThreshold threshold fl = false := by
          simp [belowThreshold, hpp]
        simp [processOne, hpp, List.filter_cons, hb]
      | ok pv =>
        cases pv with
        | none =>
          have hb : belowThreshold threshold fl = false := by
            simp [belowThreshold, hpp]
          simp [processOne, hpp, List.filter_cons, hb]
        | some q =>
          by_cases hq : q < threshold
          · have hb : belowThreshold threshold fl = true := by
              simp [belowThreshold, hpp, hq]
            simp [processOne, hpp, hq, List.filter_cons, hb]
          · have hb : belowThreshold threshold fl = false := by
              simp [belowThreshold, hpp, hq]
            simp [processOne, hpp, hq, List.filter_cons, hb]
  · refine ⟨by with_unfolding_all rfl, by with_unfolding_all rfl, ?_⟩
    with_unfolding_all decide

/-! ## Floor lemmas for `pyInt` -/

theorem ratFloor_eq_floor (q : ℚ) : ratFloor q = ⌊q⌋ := by
  rw [Rat.floor_def]
  exact Int.fdiv_eq_ediv _ (Int.ofNat_nonneg _)

theorem pyInt_eq_floor {q : ℚ} (h : 0 ≤ q) : pyInt q = ⌊q⌋ := by
  unfold pyInt
  rw [if_neg (not_lt.mpr h), ratFloor_eq_floor]

/-! ## Bounds for the scheduler's smoothing-and-clamp step -/

theorem optimalInterval_bounds {minS maxS : ℤ} (h : minS ≤ maxS) (act : ℚ) :
    minS ≤ optimalInterval minS maxS act ∧ optimalInterval minS maxS act ≤ maxS := by
  unfold optimalInterval
  split
  · exact ⟨le_refl _, h⟩
  · split
    · rw [Int.fdiv_eq_ediv _ (by norm_num)]
      constructor
      · exact (Int.le_ediv_iff_mul_le (by norm_num)).mpr (by linarith)
      · calc (minS + maxS) / 2 ≤ (2 * maxS) / 2 :=
              Int.ediv_le_ediv (by norm_num) (by linarith)
          _ = maxS := Int.mul_ediv_cancel_left _ (by norm_num)
    · exact ⟨h, le_refl _⟩

/-- Moving the interval up: the smoothed, truncated, clamped value stays
between the previous value and `min optimal (previous * 1.1)`, and gains
at least one full second once the previous value is at least 10. -/
theorem clamp_step_up {minS maxS c opt : ℤ} (h0 : 0 ≤ c)
    (hminc : minS ≤ c) (hcmax : c ≤ maxS) (hoptmax : opt ≤ maxS)
    (hup : (c : ℚ) < (opt : ℚ)) :
    c ≤ clampInterval minS maxS (pyInt (smoothToward (c : ℚ) opt)) ∧
    clampInterval minS maxS (pyInt (smoothToward (c : ℚ) opt)) ≤ maxS ∧
    ((clampInterval minS maxS (pyInt (smoothToward (c : ℚ) opt)) : ℤ) : ℚ) ≤
      (c : ℚ) * (11 / 10) ∧
    (10 ≤ c → c + 1 ≤ clampInterval minS maxS (pyInt (smoothToward (c : ℚ) opt))) := by
  have hc0 : (0 : ℚ) ≤ (c : ℚ) := by exact_mod_cast h0
  have hs : smoothToward (c : ℚ) opt = min (opt : ℚ) ((c : ℚ) * (11 / 10)) := by
    unfold smoothToward
    rw [if_pos hup]
  have hcs : (c : ℚ) ≤ smoothToward (c : ℚ) opt := by
    rw [hs]
    refine le_min (le_of_lt hup) ?_
    nlinarith [hc0]
  have hs0 : (0 : ℚ) ≤ smoothToward (c : ℚ) opt := le_trans hc0 hcs
  have hfl : pyInt (smoothToward (c : ℚ) opt) = ⌊smoothToward (c : ℚ) opt⌋ :=
    pyInt_eq_floor hs0
  have hlow : c ≤ pyInt (smoothToward (c : ℚ) opt) := by
    rw [hfl]
    exact Int.le_floor.mpr hcs
  have hupper : pyInt (smoothToward (c : ℚ) opt) ≤ maxS := by
    rw [hfl]
    have : smoothToward (c : ℚ) opt ≤ (maxS : ℚ) := by
      rw [hs]
      exact le_trans (min_le_left _ _) (by exact_mod_cast hoptmax)
    calc ⌊smoothToward (c : ℚ) opt⌋ ≤ ⌊(maxS : ℚ)⌋ := Int.floor_le_floor this
      _ = maxS := Int.floor_intCast maxS
  have hclamp : clampInterval minS maxS (pyInt (smoothToward (c : ℚ) opt)) =
      pyInt (smoothToward (c : ℚ) opt) := by
    unfold clampInterval
    rw [min_eq_right hupper, max_eq_right (le_trans hminc hlow)]
  refine ⟨by rw [hclamp]; exact hlow, by rw [hclamp]; exact hupper, ?_, ?_⟩
  · rw [hclamp, hfl]
    calc ((⌊smoothToward (c : ℚ) opt⌋ : ℤ) : ℚ) ≤ smoothToward (c : ℚ) opt :=
        Int.floor_le _
      _ ≤ (c : ℚ) * (11 / 10) := by rw [hs]; exact min_le_right _ _
  · intro h10
    rw [hclamp, hfl]
    refine Int.le_floor.mpr ?_
    rw [hs]
    refine le_min ?_ ?_
    · exact_mod_cast (Int.add_one_le_iff.mpr (by exact_mod_cast hup))
    · have : (10 : ℚ) ≤ (c : ℚ) := by exact_mod_cast h10
      push_cast
      nlinarith

/-- Moving the interval down: the smoothed, truncated, clamped value stays
between `optimal` and the previous value, and loses strictly less than
10% of the previous value plus one second. -/
theorem clamp_step_down {minS maxS c opt : ℤ} (h0 : 0 ≤ c)
    (hminc : minS ≤ c) (hcmax : c ≤ maxS) (hoptmin : minS ≤ opt)
    (hdn : ¬ ((c : ℚ) < (opt : ℚ))) :
    clampInterval minS maxS (pyInt (smoothToward (c : ℚ) opt)) ≤ c ∧
    opt ≤ clampInterval minS maxS (pyInt (smoothToward (c : ℚ) opt)) ∧
    (c : ℚ) * (9 / 10) - 1 <
      ((clampInterval minS maxS (pyInt (smoothToward (c : ℚ) opt)) : ℤ) : ℚ) := by
  have hoc : (opt : ℚ) ≤ (c : ℚ) := not_lt.mp hdn
  have hc0 : (0 : ℚ) ≤ (c : ℚ) := by exact_mod_cast h0
  have hs : smoothToward (c : ℚ) opt = max (opt : ℚ) ((c : ℚ) * (9 / 10)) := by
    unfold smoothToward
    rw [if_neg hdn]
  have hsc : smoothToward (c : ℚ) opt ≤ (c : ℚ) := by
    rw [hs]
    refine max_le hoc ?_
    nlinarith [hc0]
  have hs9 : (c : ℚ) * (9 / 10) ≤ smoothToward (c : ℚ) opt := by
    rw [hs]; exact le_max_right _ _
  have hs0 : (0 : ℚ) ≤ smoothToward (c : ℚ) opt :=
    le_trans (by nlinarith [hc0]) hs9
  have hfl : pyInt (smoothToward (c : ℚ) opt) = ⌊smoothToward (c : ℚ) opt⌋ :=
    pyInt_eq_floor hs0
  have hple : pyInt (smoothToward (c : ℚ) opt) ≤ c := by
    rw [hfl]
    calc ⌊smoothToward (c : ℚ) opt⌋ ≤ ⌊(c : ℚ)⌋ := Int.floor_le_floor hsc
      _ = c := Int.floor_intCast c
  have hpge : opt ≤ pyInt (smoothToward (c : ℚ) opt) := by
    rw [hfl]
    exact Int.le_floor.mpr (by rw [hs]; exact le_max_left _ _)
  have hclamp : clampInterval minS maxS (pyInt (smoothToward (c : ℚ) opt)) =
      pyInt (smoothToward (c : ℚ) opt) := by
    unfold clampInterval
    rw [min_eq_right (le_trans hple hcmax), max_eq_right (le_trans hoptmin hpge)]
  refine ⟨by rw [hclamp]; exact hple, by rw [hclamp]; exact hpge, ?_⟩
  rw [hclamp, hfl]
  calc (c : ℚ) * (9 / 10) - 1 ≤ smoothToward (c : ℚ) opt - 1 := by linarith
    _ < ((⌊smoothToward (c : ℚ) opt⌋ : ℤ) : ℚ) := Int.sub_one_lt_floor _

/-! ## C2 — the returned interval is clamped to its bounds -/

/-- A quiet scheduler state used by witnesses: defaults 30/600, interval
60, no recorded activity. -/
def sIdle60 : OptState :=
  { minSleep := 30, maxSleep := 600, adaptive := true, current := 60,
    activity := 0, lastActivity := 0 }

/-- A low-activity scheduler state used by witnesses. -/
def sLow40 : OptState :=
  { minSleep := 30, maxSleep := 600, adaptive := true, current := 40,
    activity := 40, lastActivity := 0 }

/-- C2: with adaptive sleep enabled and a well-formed bound pair
(`min_sleep_interval ≤ max_sleep_interval`), every
`optimize_sleep_interval` call — from any state, so along any sequence of
`(notifications_sent, data_changed)` inputs — returns an interval within
`[min_sleep_interval, max_sleep_interval]`. -/
theorem optimize_interval_within_bounds (s : OptState) (now : ℚ) (n : ℤ) (d : Bool)
    (ha : s.adaptive = true) (hmm : s.minSleep ≤ s.maxSleep) :
    (s.minSleep : ℚ) ≤ (optimizeSleepInterval s now n d).2 ∧
    (optimizeSleepInterval s now n d).2 ≤ (s.maxSleep : ℚ) := by
  simp only [optimizeSleepInterval, ha, if_true]
  constructor
  · unfold clampInterval
    push_cast
    exact le_max_left _ _
  · unfold clampInterval
    have h1 : min s.maxSleep (pyInt (smoothToward s.current
        (optimalInterval s.minSleep s.maxSleep
          (if 0 < n ∨ d = true then min 100 (s.activity + 20)
           else max 0 (s.activity - (now - s.lastActivity) / 60 * 5))))) ≤ s.maxSleep :=
      min_le_left _ _
    exact_mod_cast max_le hmm h1

/-- Witness for `optimize_interval_within_bounds` at a concrete state. -/
theorem optimize_interval_within_bounds_witness :
    (sIdle60.adaptive = true ∧ sIdle60.minSleep ≤ sIdle60.maxSleep) ∧
    ((sIdle60.minSleep : ℚ) ≤ (optimizeSleepInterval sIdle60 0 1 false).2 ∧
      (optimizeSleepInterval sIdle60 0 1 false).2 ≤ (sIdle60.maxSleep : ℚ)) :=
  ⟨⟨rfl, by norm_num [sIdle60]⟩,
    optimize_interval_within_bounds sIdle60 0 1 false rfl (by norm_num [sIdle60])⟩

/-! ## C3 — per-call interval change -/

/-- A reachable scheduler state (`check_interval = 35` initial config,
activity pushed to 100): the next call moves the interval from 35 to 31. -/
def sInterval35 : OptState :=
  { minSleep := 30, maxSleep := 600, adaptive := true, current := 35,
    activity := 100, lastActivity := 0 }

/-- Refutes C3 as stated: from interval 35 (within `[30, 600]`) with high
activity, one call yields 31 — a change of 4 seconds, exceeding 10% of 35
(= 3.5 s).  Integer truncation (`int(31.5) = 31`) makes the step
overshoot the 10% smoothing bound. -/
theorem interval_change_ten_percent_counterexample :
    ¬ (|(optimizeSleepInterval sInterval35 0 1 false).2 - sInterval35.current| ≤
        (1 / 10) * sInterval35.current) := by
  with_unfolding_all decide

/-- C3 (amended): with adaptive sleep on, well-formed nonnegative bounds,
and the current interval an integer within `[min_sleep_interval,
max_sleep_interval]` (as holds after any previous call), a single
`optimize_sleep_interval` call changes the interval by at most 10% of its
previous value **plus one second** — the extra second coming from the
`int(...)` truncation; the interval still never snaps to the target. -/
theorem interval_change_bounded (s : OptState) (now : ℚ) (n : ℤ) (d : Bool) (c : ℤ)
    (ha : s.adaptive = true) (h0 : 0 ≤ s.minSleep) (hmm : s.minSleep ≤ s.maxSleep)
    (hcur : s.current = (c : ℚ)) (hlo : s.minSleep ≤ c) (hhi : c ≤ s.maxSleep) :
    |(optimizeSleepInterval s now n d).2 - (c : ℚ)| ≤ (c : ℚ) / 10 + 1 := by
  have h0c : (0 : ℤ) ≤ c := le_trans h0 hlo
  have hc0 : (0 : ℚ) ≤ (c : ℚ) := by exact_mod_cast h0c
  simp only [optimizeSleepInterval, ha, if_true, hcur]
  set act1 : ℚ := (if 0 < n ∨ d = true then min 100 (s.activity + 20)
    else max 0 (s.activity - (now - s.lastActivity) / 60 * 5)) with hact1
  obtain ⟨hob1, hob2⟩ := optimalInterval_bounds hmm act1
  by_cases hup : (c : ℚ) < ((optimalInterval s.minSleep s.maxSleep act1 : ℤ) : ℚ)
  · obtain ⟨h1, h2, h3, h4⟩ := clamp_step_up h0c hlo hhi hob2 hup
    have h1q : (c : ℚ) ≤
        ((clampInterval s.minSleep s.maxSleep
          (pyInt (smoothToward (c : ℚ) (optimalInterval s.minSleep s.maxSleep act1))) : ℤ) :
          ℚ) := by exact_mod_cast h1
    rw [abs_of_nonneg (by linarith)]
    linarith
  · obtain ⟨h1, h2, h3⟩ := clamp_step_down h0c hlo hhi hob1 hup
    have h1q : ((clampInterval s.minSleep s.maxSleep
        (pyInt (smoothToward (c : ℚ) (optimalInterval s.minSleep s.maxSleep act1))) : ℤ) :
          ℚ) ≤ (c : ℚ) := by exact_mod_cast h1
    rw [abs_of_nonpos (by linarith)]
    linarith

/-- Witness for `interval_change_bounded` at a concrete state. -/
theorem interval_change_bounded_witness :
    (sIdle60.adaptive = true ∧ sIdle60.current = ((60 : ℤ) : ℚ)) ∧
    |(optimizeSleepInterval sIdle60 0 0 false).2 - ((60 : ℤ) : ℚ)| ≤
      ((60 : ℤ) : ℚ) / 10 + 1 :=
  ⟨⟨rfl, by norm_num [sIdle60]⟩,
    interval_change_bounded sIdle60 0 0 0 60 rfl (by norm_num [sIdle60])
      (by norm_num [sIdle60]) (by norm_num [sIdle60]) (by norm_num [sIdle60])
      (by norm_num [sIdle60])⟩

/-! ## C4 — no-activity calls move the interval toward the maximum -/

/-- A scheduler state with high activity: the next `(0, false)` call still
*decreases* the interval. -/
def sHighActivity : OptState :=
  { minSleep := 30, maxSleep := 600, adaptive := true, current := 100,
    activity := 90, lastActivity := 0 }

/-- Refutes C4 as stated ("starting from any scheduler state"): from
activity 90 and interval 100, a call with `notifications_sent = 0`,
`data_changed = False` at the same instant returns 90 < 100 — the
sequence is not monotonically non-decreasing, because residual activity
above 80 still targets `min_sleep_interval`. -/
theorem no_activity_monotone_counterexample :
    (optimizeSleepInterval sHighActivity 0 0 false).2 < sHighActivity.current := by
  with_unfolding_all decide

/-- C4 (amended): starting from a state whose activity level is already
low (≤ 50, the band that targets `max_sleep_interval`) with the interval
an integer within well-formed bounds, each `optimize_sleep_interval` call
with `notifications_sent = 0` and `data_changed = False` at a
non-decreasing wall-clock time keeps the interval non-decreasing and at
most `max_sleep_interval`, increases it strictly while below the maximum
(whenever the interval is at least 10), and re-establishes every
hypothesis — so repeated such calls approach `max_sleep_interval` and
never exceed it. -/
theorem no_activity_interval_nondecreasing (s : OptState) (now : ℚ) (c : ℤ)
    (ha : s.adaptive = true) (h0 : 0 ≤ s.minSleep) (hmm : s.minSleep ≤ s.maxSleep)
    (hcur : s.current = (c : ℚ)) (hlo : s.minSleep ≤ c) (hhi : c ≤ s.maxSleep)
    (hact : s.activity ≤ 50) (hnow : s.lastActivity ≤ now) :
    ∃ c' : ℤ,
      (optimizeSleepInterval s now 0 false).1.current = (c' : ℚ) ∧
      (optimizeSleepInterval s now 0 false).2 = (c' : ℚ) ∧
      c ≤ c' ∧ c' ≤ s.maxSleep ∧
      (10 ≤ c → c < s.maxSleep → c < c') ∧
      (optimizeSleepInterval s now 0 false).1.activity ≤ 50 ∧
      (optimizeSleepInterval s now 0 false).1.lastActivity = s.lastActivity ∧
      (optimizeSleepInterval s now 0 false).1.minSleep = s.minSleep ∧
      (optimizeSleepInterval s now 0 false).1.maxSleep = s.maxSleep ∧
      (optimizeSleepInterval s now 0 false).1.adaptive = true := by
  have h0c : (0 : ℤ) ≤ c := le_trans h0 hlo
  have hnoact : ¬ ((0 : ℤ) < 0 ∨ (false = true)) := by norm_num
  have hdecay : (0 : ℚ) ≤ (now - s.lastActivity) / 60 * 5 := by
    have h' : (0 : ℚ) ≤ now - s.lastActivity := by linarith
    positivity
  have hact1 : max 0 (s.activity - (now - s.lastActivity) / 60 * 5) ≤ 50 :=
    max_le (by norm_num) (by linarith)
  have hopt : optimalInterval s.minSleep s.maxSleep
      (max 0 (s.activity - (now - s.lastActivity) / 60 * 5)) = s.maxSleep := by
    unfold optimalInterval
    rw [if_neg (by push_neg; linarith), if_neg (by push_neg; linarith)]
  have hcall : optimizeSleepInterval s now 0 false =
      ({ s with
          current := ((clampInterval s.minSleep s.maxSleep
            (pyInt (smoothToward (c : ℚ) s.maxSleep)) : ℤ) : ℚ),
          activity := max 0 (s.activity - (now - s.lastActivity) / 60 * 5),
          lastActivity := s.lastActivity },
        ((clampInterval s.minSleep s.maxSleep
          (pyInt (smoothToward (c : ℚ) s.maxSleep)) : ℤ) : ℚ)) := by
    simp only [optimizeSleepInterval, ha, if_true, hcur, if_neg hnoact, hopt]
  rw [hcall]
  by_cases hclt : c < s.maxSleep
  · have hup : (c : ℚ) < ((s.maxSleep : ℤ) : ℚ) := by exact_mod_cast hclt
    obtain ⟨h1, h2, _, h4⟩ := clamp_step_up h0c hlo hhi (le_refl s.maxSleep) hup
    exact ⟨clampInterval s.minSleep s.maxSleep (pyInt (smoothToward (c : ℚ) s.maxSleep)),
      rfl, rfl, h1, h2, fun h10 _ => by have := h4 h10; omega, hact1, rfl, rfl, rfl, ha⟩
  · have hdn : ¬ ((c : ℚ) < ((s.maxSleep : ℤ) : ℚ)) := by
      push_neg
      exact_mod_cast not_lt.mp hclt
    obtain ⟨h1, h2, _⟩ := clamp_step_down h0c hlo hhi hmm hdn
    exact ⟨clampInterval s.minSleep s.maxSleep (pyInt (smoothToward (c : ℚ) s.maxSleep)),
      rfl, rfl, le_trans hhi h2, le_trans h1 hhi,
      fun _ hcontra => absurd hcontra hclt, hact1, rfl, rfl, rfl, ha⟩

/-- Witness for `no_activity_interval_nondecreasing` at a concrete state. -/
theorem no_activity_interval_nondecreasing_witness :
    (sLow40.activity ≤ 50 ∧ sLow40.current = ((40 : ℤ) : ℚ)) ∧
    (∃ c' : ℤ,
      (optimizeSleepInterval sLow40 0 0 false).1.current = (c' : ℚ) ∧
      (optimizeSleepInterval sLow40 0 0 false).2 = (c' : ℚ) ∧
      (40 : ℤ) ≤ c' ∧ c' ≤ sLow40.maxSleep ∧
      ((10 : ℤ) ≤ 40 → (40 : ℤ) < sLow40.maxSleep → (40 : ℤ) < c') ∧
      (optimizeSleepInterval sLow40 0 0 false).1.activity ≤ 50 ∧
      (optimizeSleepInterval sLow40 0 0 false).1.lastActivity = sLow40.lastActivity ∧
      (optimizeSleepInterval sLow40 0 0 false).1.minSleep = sLow40.minSleep ∧
      (optimizeSleepInterval sLow40 0 0 false).1.maxSleep = sLow40.maxSleep ∧
      (optimizeSleepInterval sLow40 0 0 false).1.adaptive = true) :=
  ⟨⟨by norm_num [sLow40], by norm_num [sLow40]⟩,
    no_activity_interval_nondecreasing sLow40 0 40 rfl (by norm_num [sLow40])
      (by norm_num [sLow40]) (by norm_num [sLow40]) (by norm_num [sLow40])
      (by norm_num [sLow40]) (by norm_num [sLow40]) (by norm_num [sLow40])⟩

/-! ## C5 — cache TTL semantics -/

/-- C5: for a (truthy) cache key whose entry was cached at `t₀`, a second
`efficient_data_load` at `t₁` with `t₁ - t₀ < cache_ttl` returns the
cached payload with no backing-store read and leaves the state unchanged;
once `t₁ - t₀ ≥ cache_ttl` (the `== ttl` boundary included), the entry is
expired and exactly one fresh backing-store read occurs, refreshing the
cache entry and its timestamp. -/
theorem cache_ttl_semantics (s : CacheState) (file : FileData) (k : String)
    (t₀ t₁ : ℚ) (d : List Flight)
    (hk : k ≠ "") (hd : alookup s.dataCache k = some d)
    (ht : alookup s.cacheTimestamps k = some t₀) :
    (t₁ - t₀ < s.cacheTtl → efficientDataLoad s file k t₁ = (s, d, 0)) ∧
    (s.cacheTtl ≤ t₁ - t₀ → ∀ d', file = .good d' →
      efficientDataLoad s file k t₁ =
        ({ dataCache := ainsert s.dataCache k d'
           cacheTimestamps := ainsert s.cacheTimestamps k t₁
           cacheTtl := s.cacheTtl }, d', 1)) := by
  constructor
  · intro hfresh
    simp only [efficientDataLoad, hk, hd, ht, ne_eq, not_false_eq_true, if_true,
      Option.getD_some]
    rw [if_pos hfresh]
  · intro hstale d' hfile
    subst hfile
    simp only [efficientDataLoad, hk, hd, ht, ne_eq, not_false_eq_true, if_true,
      Option.getD_some]
    rw [if_neg (not_lt.mpr hstale)]

/-- Witness for `cache_ttl_semantics` at a concrete state. -/
theorem cache_ttl_semantics_witness :
    ((("flight_prices" : String) ≠ "" ∧
      alookup [("flight_prices", [fDelta])] "flight_prices" = some [fDelta] ∧
      alookup [("flight_prices", (0 : ℚ))] "flight_prices" = some 0) ∧
     ((100 : ℚ) - 0 < (300 : ℚ) →
        efficientDataLoad ⟨[("flight_prices", [fDelta])], [("flight_prices", 0)], 300⟩
          (.good [fUnited]) "flight_prices" 100 =
          (⟨[("flight_prices", [fDelta])], [("flight_prices", 0)], 300⟩, [fDelta], 0)) ∧
     ((300 : ℚ) ≤ (400 : ℚ) - 0 → ∀ d', FileData.good [fUnited] = .good d' →
        efficientDataLoad ⟨[("flight_prices", [fDelta])], [("flight_prices", 0)], 300⟩
          (.good [fUnited]) "flight_prices" 400 =
          ({ dataCache := ainsert [("flight_prices", [fDelta])] "flight_prices" d'
             cacheTimestamps := ainsert [("flight_prices", (0 : ℚ))] "flight_prices" 400
             cacheTtl := 300 }, d', 1))) :=
  ⟨⟨by with_unfolding_all decide, by with_unfolding_all rfl, by with_unfolding_all rfl⟩,
    (cache_ttl_semantics ⟨[("flight_prices", [fDelta])], [("flight_prices", 0)], 300⟩
      (.good [fUnited]) "flight_prices" 0 100 [fDelta] (by with_unfolding_all decide)
      (by with_unfolding_all rfl) (by with_unfolding_all rfl)).1,
    (cache_ttl_semantics ⟨[("flight_prices", [fDelta])], [("flight_prices", 0)], 300⟩
      (.good [fUnited]) "flight_prices" 0 400 [fDelta] (by with_unfolding_all decide)
      (by with_unfolding_all rfl) (by with_unfolding_all rfl)).2⟩

/-! ## C6 — the chunked sleep honors shutdown within one chunk -/

/-- Once the shutdown flag is observed at a loop head (or at the final
flag check), the loop returns `(t, false)` immediately. -/
theorem chunkedSleepLoop_at_request {req : ℚ → Bool} (chunk : ℕ) (hc : 0 < chunk)
    {t : ℚ} (h : req t = true) (r : ℕ) :
    chunkedSleepLoop req chunk hc t r = (t, false) := by
  rw [chunkedSleepLoop]
  by_cases hr : r = 0
  · rw [dif_pos hr]
    simp [h]
  · rw [dif_neg hr, if_pos h]

/-- With shutdown never requested, the loop sleeps the whole remaining
time and returns `true`. -/
theorem chunkedSleepLoop_of_never {req : ℚ → Bool} (hnever : ∀ τ, req τ = false)
    (chunk : ℕ) (hc : 0 < chunk) (remaining : ℕ) :
    ∀ t : ℚ, chunkedSleepLoop req chunk hc t remaining = (t + remaining, true) := by
  induction remaining using Nat.strong_induction_on with
  | _ r ih =>
    intro t
    rw [chunkedSleepLoop]
    by_cases hr : r = 0
    · rw [dif_pos hr]
      subst hr
      simp [hnever]
    · rw [dif_neg hr]
      rw [if_neg (by rw [hnever t]; simp)]
      have hs1 : 1 ≤ min chunk r := by omega
      have hsr : min chunk r ≤ r := min_le_right _ _
      rw [ih (r - min chunk r) (by omega)]
      have hcast : ((r - min chunk r : ℕ) : ℚ) = (r : ℚ) - (min chunk r : ℕ) :=
        Nat.cast_sub hsr
      rw [hcast]
      refine congrArg (fun x => (x, true)) ?_
      ring

/-- With a monotone shutdown oracle that fires at `tq`, the loop (entered
with the flag not yet set) returns `false` no later than `tq + chunk`. -/
theorem chunkedSleepLoop_request {req : ℚ → Bool}
    (hmono : ∀ a b : ℚ, a ≤ b → req a = true → req b = true)
    (chunk : ℕ) (hc : 0 < chunk) {tq : ℚ} (hq : req tq = true) (remaining : ℕ) :
    ∀ t : ℚ, req t = false → tq ≤ t + remaining →
      (chunkedSleepLoop req chunk hc t remaining).2 = false ∧
      (chunkedSleepLoop req chunk hc t remaining).1 ≤ tq + chunk := by
  induction remaining using Nat.strong_induction_on with
  | _ r ih =>
    intro t hf hle
    have htlt : t < tq := by
      by_contra hcon
      push_neg at hcon
      have := hmono tq t hcon hq
      rw [hf] at this
      exact Bool.false_ne_true this
    rw [chunkedSleepLoop]
    by_cases hr : r = 0
    · exfalso
      subst hr
      simp only [Nat.cast_zero, add_zero] at hle
      linarith
    · rw [dif_neg hr]
      rw [if_neg (by rw [hf]; simp)]
      have hs1 : 1 ≤ min chunk r := by omega
      have hsr : min chunk r ≤ r := min_le_right _ _
      have hschunk : ((min chunk r : ℕ) : ℚ) ≤ ((chunk : ℕ) : ℚ) :=
        Nat.cast_le.mpr (min_le_left _ _)
      by_cases hreq2 : req (t + (min chunk r : ℕ)) = true
      · rw [chunkedSleepLoop_at_request chunk hc hreq2]
        refine ⟨rfl, ?_⟩
        show t + ((min chunk r : ℕ) : ℚ) ≤ tq + ((chunk : ℕ) : ℚ)
        linarith
      · have hff : req (t + (min chunk r : ℕ)) = false :=
          Bool.not_eq_true _ ▸ hreq2
        refine ih (r - min chunk r) (by omega) (t + (min chunk r : ℕ)) hff ?_
        have hcast : ((r - min chunk r : ℕ) : ℚ) = (r : ℚ) - (min chunk r : ℕ) :=
          Nat.cast_sub hsr
        rw [hcast]
        linarith

/-- C6: with the shutdown flag modelled as a monotone time oracle, an
`optimized_sleep` of (optimized) interval `T` seconds starting at `t₀`:
if shutdown is never requested it sleeps the full interval and returns
`true`; if shutdown is requested at any `tq` during the sleep, it returns
`false` at most 10 seconds (one chunk) after the request — not at the end
of the originally requested interval. -/
theorem optimized_sleep_shutdown_responsive (req : ℚ → Bool)
    (hmono : ∀ a b : ℚ, a ≤ b → req a = true → req b = true) (t₀ : ℚ) (T : ℕ) :
    ((∀ τ, req τ = false) → optimizedSleep req t₀ T = (t₀ + T, true)) ∧
    (∀ tq, req tq = true → tq ≤ t₀ + T →
      (optimizedSleep req t₀ T).2 = false ∧
      (optimizedSleep req t₀ T).1 ≤ max t₀ tq + 10) := by
  constructor
  · intro hnever
    rw [optimizedSleep, if_neg (by rw [hnever t₀]; simp)]
    by_cases hT : T = 0
    · rw [dif_pos hT]
      subst hT
      simp [hnever]
    · rw [dif_neg hT]
      rw [chunkedSleepLoop_of_never hnever _ _ T t₀]
  · intro tq hq hle
    rw [optimizedSleep]
    by_cases h₀ : req t₀ = true
    · rw [if_pos h₀]
      exact ⟨rfl, le_trans (le_max_left t₀ tq) (by linarith)⟩
    · rw [if_neg h₀]
      have hf : req t₀ = false := Bool.not_eq_true _ ▸ h₀
      by_cases hT : T = 0
      · exfalso
        subst hT
        simp only [Nat.cast_zero, add_zero] at hle
        have := hmono tq t₀ hle hq
        rw [hf] at this
        exact Bool.false_ne_true this
      · rw [dif_neg hT]
        obtain ⟨h1, h2⟩ := chunkedSleepLoop_request hmono (min T 10)
          (by omega) hq T t₀ hf hle
        refine ⟨h1, le_trans h2 ?_⟩
        have hch : ((min T 10 : ℕ) : ℚ) ≤ 10 := by exact_mod_cast min_le_right T 10
        have : tq ≤ max t₀ tq := le_max_right t₀ tq
        linarith

/-- Witness for `optimized_sleep_shutdown_responsive`: a shutdown request
arriving at `t = 5` during a 30-second optimized sleep started at 0. -/
theorem optimized_sleep_shutdown_responsive_witness :
    ((∀ a b : ℚ, a ≤ b → decide ((5 : ℚ) ≤ a) = true → decide ((5 : ℚ) ≤ b) = true) ∧
      decide ((5 : ℚ) ≤ 5) = true ∧ (5 : ℚ) ≤ 0 + (30 : ℕ)) ∧
    ((optimizedSleep (fun τ => decide ((5 : ℚ) ≤ τ)) 0 30).2 = false ∧
      (optimizedSleep (fun τ => decide ((5 : ℚ) ≤ τ)) 0 30).1 ≤ max 0 5 + 10) :=
  ⟨⟨fun a b hab ha => decide_eq_true (le_trans (of_decide_eq_true ha) hab),
      by norm_num, by norm_num⟩,
    (optimized_sleep_shutdown_responsive (fun τ => decide ((5 : ℚ) ≤ τ))
      (fun a b hab ha => decide_eq_true (le_trans (of_decide_eq_true ha) hab)) 0 30).2
      5 (by norm_num) (by norm_num)⟩

end AirReserve
